import Mathlib

/-!
Verification development for the ArkDataKit wiki-scraping pipeline.

The Python sources are shallowly embedded:
* `utils.clean_text` / `utils.clean_desc`  → `clean_text` / `clean_desc` below,
  over an HTML fragment type `Node` (tag name, style attribute, class list,
  children).  BeautifulSoup's `get_text(strip=True, separator=sep)` is
  modelled by `getTextStrip`.
* `operators_detail_parse.OperatorDetailParser` → the `parse_*` functions.
  Browser interactions (Playwright calls) are modelled by explicit oracle
  values describing the outcome of each external call; everything that is
  pure HTML processing is translated directly.
* `operators_list_get.OperatorListCrawler.parse` rarity correction →
  `parse_rarity`.

Machine-level conventions: Python `str` is `String`; a Python `IndexError`
is `Except.error`; `None` is `Option.none`; Python regex `\s` is the ASCII
whitespace set `pyWs`.
-/

/-! ## Python-style string primitives -/

/-- The characters matched by Python's regex `\s` (ASCII part) and stripped
by `str.strip()`. -/
def pyWs (c : Char) : Bool :=
  c = ' ' ∨ c = '\t' ∨ c = '\n' ∨ c = '\x0b' ∨ c = '\x0c' ∨ c = '\r'

/-- One pass of `re.sub(r"\s+", r, text)`: every maximal run of whitespace
characters is replaced by the single character `r`.  The boolean records
whether we are inside a whitespace run. -/
def collapseAux (r : Char) : List Char → Bool → List Char
  | [], _ => []
  | c :: cs, inRun =>
    if pyWs c then
      if inRun then collapseAux r cs true else r :: collapseAux r cs true
    else c :: collapseAux r cs false

/-- `re.sub(r"\s+", String.singleton r, s)` on the character list of `s`. -/
def collapseWs (r : Char) (l : List Char) : List Char := collapseAux r l false

/-- Python `str.strip()`: drop whitespace from both ends. -/
def stripWs (l : List Char) : List Char :=
  ((l.dropWhile pyWs).reverse.dropWhile pyWs).reverse

/-- Python `text.replace("（+）", "")`: remove every occurrence of the
three-character annotation marker, scanning left to right. -/
def removePlus : List Char → List Char
  | [] => []
  | [a] => [a]
  | [a, b] => [a, b]
  | a :: b :: d :: cs =>
    if a = '（' ∧ b = '+' ∧ d = '）' then removePlus cs
    else a :: removePlus (b :: d :: cs)

/-- `pat.isPrefixOf l` on raw character lists. -/
def startsWithSeq : List Char → List Char → Bool
  | [], _ => true
  | _ :: _, [] => false
  | a :: as, b :: bs => a = b && startsWithSeq as bs

/-- Python's `pat in l` substring test on character lists. -/
def containsSeq (pat : List Char) : List Char → Bool
  | [] => startsWithSeq pat []
  | l@(_ :: t) => startsWithSeq pat l || containsSeq pat t

/-- Python's `pat in s` substring containment on strings. -/
def strContains (s pat : String) : Bool := containsSeq pat.data s.data

/-- Python `int(s)`: optional surrounding whitespace, optional sign, at
least one decimal digit.  `none` models a raised `ValueError`. -/
def digitVal (c : Char) : Option Nat :=
  if '0' ≤ c ∧ c ≤ '9' then some (c.toNat - '0'.toNat) else none

/-- Accumulate decimal digits; `none` if a non-digit appears or the list is
empty. -/
def digitsVal : List Char → Option Nat → Option Nat
  | [], acc => acc
  | c :: cs, acc =>
    match digitVal c with
    | none => none
    | some d => digitsVal cs (some ((acc.getD 0) * 10 + d))

/-- Python `int(s)` for decimal literals (sign and surrounding whitespace
allowed), returning `none` where Python raises `ValueError`. -/
def pyInt (s : String) : Option Int :=
  match stripWs s.data with
  | '-' :: rest => (digitsVal rest none).map (fun n => -(n : Int))
  | '+' :: rest => (digitsVal rest none).map (fun n => (n : Int))
  | l => (digitsVal l none).map (fun n => (n : Int))

/-! ## HTML fragments

A `Node` is either a text node or an element carrying its tag name, the
value of its `style` attribute, its `class` token list, and its children. -/

inductive Node where
  | text : String → Node
  | elem : String → String → List String → List Node → Node

/-- Tag name of an element node. -/
def tagOf : Node → Option String
  | .text _ => none
  | .elem t _ _ _ => some t

/-- The `style` attribute (empty for text nodes, matching `get("style", "")`). -/
def styleOf : Node → String
  | .text _ => ""
  | .elem _ st _ _ => st

/-- The `class` attribute token list (`get("class", [])`). -/
def classesOf : Node → List String
  | .text _ => []
  | .elem _ _ cl _ => cl

/-- Direct children (`tag.contents`). -/
def childrenOf : Node → List Node
  | .text _ => []
  | .elem _ _ _ cs => cs

mutual
/-- All text-node strings below a node, in document order
(BeautifulSoup's `tag.strings`). -/
def nodeStrings : Node → List String
  | .text s => [s]
  | .elem _ _ _ cs => listStrings cs
def listStrings : List Node → List String
  | [] => []
  | c :: cs => nodeStrings c ++ listStrings cs
end

mutual
/-- All descendants of a node in document (pre-)order; the node itself is
not included, matching `tag.find_all` / `tag.select` scope. -/
def descendants : Node → List Node
  | .text _ => []
  | .elem _ _ _ cs => descList cs
def descList : List Node → List Node
  | [] => []
  | c :: cs => c :: (descendants c ++ descList cs)
end

/-- `tag.find_all(t)`: descendant elements with the given tag name. -/
def findAllTag (t : String) (n : Node) : List Node :=
  (descendants n).filter (fun c => tagOf c = some t)

/-- `tag.find(t)`: first descendant element with the given tag name. -/
def findTag (t : String) (n : Node) : Option Node :=
  (findAllTag t n).head?

/-- `tag.get_text(strip=True, separator=sep)`: each string is stripped,
empty results are skipped, the rest are joined with `sep`. -/
def getTextStrip (sep : String) (n : Node) : String :=
  String.intercalate sep
    (((nodeStrings n).map (fun s => String.mk (stripWs s.data))).filter (fun s => s ≠ ""))

/-- `tag.string` (BeautifulSoup): defined when the tag has exactly one
child chain ending in a text node. -/
def stringOf : Node → Option String
  | .text s => some s
  | .elem _ _ _ [c] => stringOf c
  | .elem _ _ _ _ => none

/-- Whether a node is a `<br>` element. -/
def isBr : Node → Bool
  | .elem "br" _ _ _ => true
  | _ => false

mutual
/-- `for br in tag.find_all("br"): br.replace_with("\n")` — replace every
`<br>` descendant with a newline text node. -/
def brToNewline : Node → Node
  | .text s => .text s
  | .elem t st cl cs => .elem t st cl (brList cs)
def brList : List Node → List Node
  | [] => []
  | c :: cs => (if isBr c then .text "\n" else brToNewline c) :: brList cs
end

/-! ## utils.clean_text / utils.clean_desc -/

/-- The argument of `clean_text`: a raw string or a markup node.  `none`
models Python falsy input (`None`, and the guard also catches `""`). -/
inductive Frag where
  | str : String → Frag
  | node : Node → Frag

/-- `utils.clean_text(tag, replace_plus, handle_br)`.

* falsy input → `""`;
* string input → strip, collapse `\s+` to spaces, strip, then (if
  `replace_plus`) drop the `（+）` marker and strip;
* node input with `handle_br` → `<br>` to `"\n"`, `get_text(strip=True,
  separator="\n")`, collapse `\s+` to spaces, strip;
* node input otherwise → `get_text(strip=True)`, then (if `replace_plus`)
  drop the `（+）` marker and strip. -/
def clean_text (tag : Option Frag) (replacePlus handleBr : Bool) : String :=
  match tag with
  | none => ""
  | some (.str s) =>
    let t1 := stripWs s.data
    let t2 := stripWs (collapseWs ' ' t1)
    if replacePlus then String.mk (stripWs (removePlus t2)) else String.mk t2
  | some (.node n) =>
    if handleBr then
      let t := getTextStrip "\n" (brToNewline n)
      String.mk (stripWs (collapseWs ' ' t.data))
    else
      let t := getTextStrip "" n
      if replacePlus then String.mk (stripWs (removePlus t.data)) else t

/-- Shorthand: `clean_text(node)` with Python's default arguments. -/
def cleanN (n : Node) : String := clean_text (some (.node n)) true false

/-- Shorthand: `clean_text` applied to an optional node (e.g. the result of
`select_one`), default arguments. -/
def cleanO (n : Option Node) : String := clean_text (n.map Frag.node) true false

/-- The style substrings whose `<span>`s `utils.clean_desc` removes. -/
def badStyles : List String :=
  ["color:#0098DC", "color:green", "color:#007DFA", "display:none"]

/-- Whether a node is one of the noise spans removed by `clean_desc`. -/
def isBadSpan : Node → Bool
  | .elem "span" st _ _ => badStyles.any (fun b => strContains st b)
  | _ => false

mutual
/-- Remove every noise-span descendant (`bad_span.replace_with("")`). -/
def scrub : Node → Node
  | .text s => .text s
  | .elem t st cl cs => .elem t st cl (scrubList cs)
def scrubList : List Node → List Node
  | [] => []
  | c :: cs => if isBadSpan c then scrubList cs else scrub c :: scrubList cs
end

/-- `utils.clean_desc(tag)`: drop the noise spans, then `clean_text`. -/
def clean_desc (tag : Option Node) : String :=
  match tag with
  | none => ""
  | some n => clean_text (some (.node (scrub n))) true false

/-! ## Talent extraction (`parse_talents` / inner `parse_single_talent`)

Detail rows read `tds[1]` and `tds[2]` unguarded in the source, so the loop
is `Except`-valued: `Except.error` models a Python `IndexError`. -/

structure TalentDetail where
  trigger_condition : String
  description : String
  potential_enhancement : String
deriving DecidableEq, Repr

structure Talent where
  talent_type : String
  talent_name : String
  remarks : String
  details : List TalentDetail
deriving DecidableEq, Repr

/-- Python `l[i]` on a node list: `IndexError` when out of range. -/
def pyGet (l : List Node) (i : Nat) : Except String Node :=
  match l.get? i with
  | some x => Except.ok x
  | none => Except.error "IndexError"

/-- `select_one(f"span.{cls}")`: first descendant span whose class token
list contains `cls`. -/
def selectSpanClass (cls : String) (n : Node) : Option Node :=
  ((descendants n).filter (fun c =>
    tagOf c = some "span" ∧ cls ∈ classesOf c)).head?

/-- The row loop of `parse_single_talent`.  `total` is `len(rows)`; the
state is (current index, talent name so far, detail list so far, remark
flag).  Returns (name, details, remark text). -/
def talentLoop (total : Nat) (pfx : String) :
    List Node → Nat → String → List TalentDetail → Bool →
    Except String (String × List TalentDetail × String)
  | [], _, name, details, _ => .ok (name, details, "")
  | row :: rest, idx, name, details, isRemark =>
    if idx = 0 then talentLoop total pfx rest (idx + 1) name details isRemark
    else
      let tds := findAllTag "td" row
      let th := findTag "th" row
      if idx = total - 2 ∧ th.isSome then
        talentLoop total pfx rest (idx + 1) name details true
      else if tds.isEmpty then talentLoop total pfx rest (idx + 1) name details isRemark
      else if isRemark then
        match pyGet tds 0 with
        | .error e => .error e
        | .ok t0 => .ok (name, details, cleanN t0)
      else
        match pyGet tds 0 with
        | .error e => .error e
        | .ok t0 =>
          let currentName := cleanN t0
          let name2 := if name = "" ∧ currentName ≠ "" then currentName else name
          match pyGet tds 1 with
          | .error e => .error e
          | .ok t1 =>
            match pyGet tds 2 with
            | .error e => .error e
            | .ok t2 =>
              let d : TalentDetail :=
                { trigger_condition := cleanN t1
                  description := clean_desc (selectSpanClass (pfx ++ "潜能_1") t2)
                  potential_enhancement := clean_desc (selectSpanClass (pfx ++ "潜能_2") t2) }
              talentLoop total pfx rest (idx + 1) name2 (details ++ [d]) isRemark

/-- `parse_single_talent(table, talent_type, span_prefix)`: run the row
loop, then emit the talent only if both the name and the detail list are
non-empty (`return talent if talent["talent_name"] and talent["details"]
else None`). -/
def parse_single_talent (table : Node) (talentType pfx : String) :
    Except String (Option Talent) :=
  match talentLoop (findAllTag "tr" table).length pfx (findAllTag "tr" table) 0 "" [] false with
  | .error e => .error e
  | .ok (name, details, remark) =>
    .ok (if name ≠ "" ∧ details ≠ [] then
      some { talent_type := talentType, talent_name := name,
             remarks := remark, details := details }
    else none)

/-- The two talent tables as located by `parse_talents`: the first
`wikitable` after the `天赋` heading, and its following sibling
`wikitable` (only looked up when the first exists). -/
structure TalentSection where
  firstTbl : Option Node
  secondTbl : Option Node

/-- `parse_talents`: `none` section models a missing `天赋` heading. -/
def parse_talents (sec : Option TalentSection) : Except String (List Talent) :=
  match sec with
  | none => .ok []
  | some s =>
    match s.firstTbl with
    | none => .ok []
    | some tbl1 =>
      match parse_single_talent tbl1 "第一天赋" "第一天赋" with
      | .error e => .error e
      | .ok r1 =>
        let ts1 := match r1 with | some x => [x] | none => []
        match s.secondTbl with
        | none => .ok ts1
        | some tbl2 =>
          match parse_single_talent tbl2 "第二天赋" "第二天赋" with
          | .error e => .error e
          | .ok r2 =>
            .ok (ts1 ++ (match r2 with | some x => [x] | none => []))

/-! ## Skill extraction (`parse_skills` / inner `parse_single_skill`) -/

structure SkillLevel where
  level : String
  description : String
  initial_sp : String
  sp_cost : String
  duration : String
deriving DecidableEq, Repr

structure Skill where
  skill_number : Nat
  skill_name : String
  skill_type : String
  unlock_condition : String
  remark : String
  skill_levels : List SkillLevel
deriving DecidableEq, Repr

/-- `extract_visible_text(td)`: direct children only; bare strings are
stripped, `<span>`s without `display:none` in their style go through
`clean_text`, everything else is ignored; parts joined by single spaces. -/
def extract_visible_text (td : Node) : String :=
  String.intercalate " " ((childrenOf td).filterMap (fun c =>
    match c with
    | .text s =>
      let st := String.mk (stripWs s.data)
      if st ≠ "" then some st else none
    | .elem "span" style cl cs =>
      if strContains style "display:none" then none
      else
        let t := cleanN (.elem "span" style cl cs)
        if t ≠ "" then some t else none
    | _ => none))

/-- Row-0 header update of `parse_single_skill`: skill name from `tds[1]`
(preferring a `<big>` child), skill type from the `mc-tooltips` spans of
`tds[2]`; each only when that cell exists. -/
def skillHeaderUpd (tds : List Node) (s : Skill) : Skill :=
  let s1 :=
    match tds.get? 1 with
    | some td1 =>
      { s with skill_name :=
          match findTag "big" td1 with
          | some big => cleanN big
          | none => cleanN td1 }
    | none => s
  match tds.get? 2 with
  | some td2 =>
    { s1 with skill_type :=
        String.intercalate "|" (((descendants td2).filter (fun c =>
          tagOf c = some "span" ∧ "mc-tooltips" ∈ classesOf c)).map cleanN) }
  | none => s1

/-- A `skill_levels` entry built from a row with at least 5 cells
(`tds[0]`–`tds[4]`). -/
def mkSkillLevel (tds : List Node) : SkillLevel :=
  { level := cleanN (tds.getD 0 (.text ""))
    description := extract_visible_text (tds.getD 1 (.text ""))
    initial_sp := cleanN (tds.getD 2 (.text ""))
    sp_cost := cleanN (tds.getD 3 (.text ""))
    duration := cleanN (tds.getD 4 (.text "")) }

/-- The row loop of `parse_single_skill`.  Branch order as in the source:
empty `tds` → skip; row 0 → header; rows 8/11 → level capture when at
least 5 cells; second-to-last row with a `<th>` → arm the remark flag;
armed flag → capture remark and stop. -/
def skillLoop (total : Nat) : List Node → Nat → Skill → Bool → Skill
  | [], _, s, _ => s
  | row :: rest, idx, s, isRemark =>
    let tds := findAllTag "td" row
    if tds.isEmpty then skillLoop total rest (idx + 1) s isRemark
    else if idx = 0 then skillLoop total rest (idx + 1) (skillHeaderUpd tds s) isRemark
    else if idx = 8 ∨ idx = 11 then
      if 5 ≤ tds.length then
        skillLoop total rest (idx + 1)
          { s with skill_levels := s.skill_levels ++ [mkSkillLevel tds] } isRemark
      else skillLoop total rest (idx + 1) s isRemark
    else if idx = total - 2 ∧ (findTag "th" row).isSome then
      skillLoop total rest (idx + 1) s true
    else if isRemark then
      match tds with
      | t0 :: _ => { s with remark := cleanN t0 }
      | [] => s
    else skillLoop total rest (idx + 1) s isRemark

/-- `parse_single_skill(table, skill_idx)`. -/
def parse_single_skill (table : Node) (skillIdx : Nat) : Skill :=
  let rows := findAllTag "tr" table
  skillLoop rows.length rows 0
    { skill_number := skillIdx
      skill_name := ""
      skill_type := ""
      unlock_condition := "精英" ++ toString skillIdx
      remark := ""
      skill_levels := [] } false

/-- The bounded sibling-table walk of `parse_skills`: starting from the
chain of sibling tables after the `技能` heading, take up to 3 whose class
list contains `wikitable`; a non-matching current table stops the walk,
later candidates are pre-filtered (`find_next_sibling` skips
non-matching siblings). -/
def skillTablesWalk : Nat → List Node → List Node
  | 0, _ => []
  | _, [] => []
  | fuel + 1, t :: rest =>
    if "wikitable" ∈ classesOf t then
      t :: skillTablesWalk fuel (rest.dropWhile (fun u => "wikitable" ∉ classesOf u))
    else []

/-- `parse_skills`: `none` models a missing `技能` heading; otherwise walk
the sibling chain, parse each table with its 1-based index, and keep only
skills with a non-empty name. -/
def parse_skills (sec : Option (List Node)) : List Skill :=
  match sec with
  | none => []
  | some chain =>
    let tables := skillTablesWalk 3 chain
    ((tables.enum.map (fun p => parse_single_skill p.2 (p.1 + 1))).filter
      (fun s => s.skill_name ≠ ""))

/-! ## Glossary term extraction (`parse_terms`)

The browser interaction for one candidate span (hover, tooltip probing,
strong/others text extraction) is summarised by a `TipOutcome` oracle: the
pure post-processing (type-vs-name collapse, description reformatting,
minimum-length filter, dedup, counters, crash break) is translated from the
source. -/

structure Term where
  term_name : String
  term_type : String
  term_description : String
deriving DecidableEq, Repr

/-- Outcome of the per-candidate browser interaction:
`tip t d` — a tooltip was found, with `t` the joined `<strong>` type label
(`"无"` when no strong text) and `d` the raw description text;
`noTip` — no tooltip container matched (counted failed, not processed);
`errCounted` — timeout / attribute error / other non-crash exception
(counted failed and processed);
`crash` — the page reported itself crashed (the loop stops). -/
inductive TipOutcome where
  | tip : String → String → TipOutcome
  | noTip : TipOutcome
  | errCounted : TipOutcome
  | crash : TipOutcome
deriving DecidableEq, Repr

/-- One candidate span: its cleaned text, its class token list, and the
oracle outcome of hovering it. -/
structure Cand where
  name : String
  classes : List String
  outcome : TipOutcome
deriving DecidableEq, Repr

/-- `re.sub(r"\s+", "\n", desc).strip()` followed by the minimum-length
check and term construction; the type label is replaced by `"无"` when it
merely restates the term name. -/
def mkTermOfTip (descMin : Nat) (c : Cand) (ttypeRaw desc : String) : Option Term :=
  let ttype := if ttypeRaw = c.name then "无" else ttypeRaw
  let formatted := String.mk (stripWs (collapseWs '\n' desc.data))
  if formatted.length < descMin then none
  else some { term_name := c.name, term_type := ttype, term_description := formatted }

/-- The candidate loop of `parse_terms`: `maxTerms` is `min(total, 20)`,
`seen` the names already accepted, `processed` the processed counter. -/
def termsLoop (descMin maxTerms : Nat) :
    List Cand → List String → List Term → Nat → List Term
  | [], _, terms, _ => terms
  | c :: rest, seen, terms, processed =>
    if maxTerms ≤ processed then terms
    else if c.name = "" ∨ c.name ∈ seen then
      termsLoop descMin maxTerms rest seen terms processed
    else if (c.classes.filter (fun cl => strContains cl "mc-tooltips")) = [] then
      termsLoop descMin maxTerms rest seen terms processed
    else
      match c.outcome with
      | .crash => terms
      | .errCounted => termsLoop descMin maxTerms rest seen terms (processed + 1)
      | .noTip => termsLoop descMin maxTerms rest seen terms processed
      | .tip ttypeRaw desc =>
        match mkTermOfTip descMin c ttypeRaw desc with
        | none => termsLoop descMin maxTerms rest seen terms processed
        | some t =>
          termsLoop descMin maxTerms rest (seen ++ [c.name]) (terms ++ [t]) (processed + 1)

/-- The final safety dedup pass over the accumulated terms. -/
def finalDedup : List Term → List String → List Term
  | [], _ => []
  | t :: rest, seen =>
    if t.term_name ∈ seen then finalDedup rest seen
    else t :: finalDedup rest (seen ++ [t.term_name])

/-- `parse_terms`: `cands = none` models a missing `mw-content-text` div;
an empty candidate list returns before touching the page; `pageAlive`
models the up-front `document.title` crash probe. -/
def parse_terms (descMin : Nat) (pageAlive : Bool) (cands : Option (List Cand)) :
    List Term :=
  match cands with
  | none => []
  | some cs =>
    if cs.length = 0 then []
    else if ¬ pageAlive then []
    else finalDedup (termsLoop descMin (min cs.length 20) cs [] [] 0) []

/-! ## Attribute extraction (`parse_attrs`) and trait extraction (`parse_chara`) -/

structure BaseAttrs where
  elite_0_level_1 : List (String × String)
  elite_0_max : List (String × String)
  elite_1_max : List (String × String)
  elite_2_max : List (String × String)
  trust_bonus : List (String × String)
deriving DecidableEq, Repr

def emptyBaseAttrs : BaseAttrs := ⟨[], [], [], [], []⟩

/-- Python dict assignment `d[k] = v` on an association list. -/
def insertKV (l : List (String × String)) (k v : String) : List (String × String) :=
  if l.any (fun p => p.1 = k) then l.map (fun p => if p.1 = k then (k, v) else p)
  else l ++ [(k, v)]

/-- `base_attrs[key][attr] = val` for the five tier keys; an unknown key is
impossible in the source (guarded by `key_mapping[idx]` being truthy). -/
def setBase (b : BaseAttrs) (key attrKey v : String) : BaseAttrs :=
  if key = "elite_0_level_1" then { b with elite_0_level_1 := insertKV b.elite_0_level_1 attrKey v }
  else if key = "elite_0_max" then { b with elite_0_max := insertKV b.elite_0_max attrKey v }
  else if key = "elite_1_max" then { b with elite_1_max := insertKV b.elite_1_max attrKey v }
  else if key = "elite_2_max" then { b with elite_2_max := insertKV b.elite_2_max attrKey v }
  else if key = "trust_bonus" then { b with trust_bonus := insertKV b.trust_bonus attrKey v }
  else b

/-- The tier classification of one header cell. -/
def headerKey (h : String) : String :=
  if strContains h "精英0 1级" then "elite_0_level_1"
  else if strContains h "精英0 满级" then "elite_0_max"
  else if strContains h "精英1 满级" then "elite_1_max"
  else if strContains h "精英2 满级" then "elite_2_max"
  else if strContains h "信赖加成上限" then "trust_bonus"
  else ""

def attr_mapping : List (String × String) :=
  [("生命上限", "max_hp"), ("攻击", "atk"), ("防御", "def"), ("法术抗性", "res")]

/-- `tr.select("th, td")`: header and data cells of a row in document order. -/
def cellsOf (r : Node) : List Node :=
  (descendants r).filter (fun c => tagOf c = some "th" ∨ tagOf c = some "td")

/-- One data row of the base-attribute table: rows with fewer than 2 cells
are skipped; the leading label maps through `attr_mapping` (falling back to
the lowercased label); columns fill the tier classified for them. -/
def fillBaseRow (keyMap : List String) (b : BaseAttrs) (tds : List String) : BaseAttrs :=
  if tds.length < 2 then b
  else
    match tds with
    | [] => b
    | t0 :: trest =>
      let attrKey := ((attr_mapping.find? (fun p => p.1 = t0)).map Prod.snd).getD t0.toLower
      trest.enum.foldl (fun acc p =>
        let idx := p.1 + 1
        match keyMap.get? idx with
        | some km => if km ≠ "" then setBase acc km attrKey p.2 else acc
        | none => acc) b

/-- The base-attribute table pass of `parse_attrs`. -/
def parseBaseTbl (t : Node) : BaseAttrs :=
  let rows := findAllTag "tr" t
  let headers := (match rows with
    | r :: _ => (cellsOf r).map cleanN
    | [] => [])
  let keyMap := headers.map headerKey
  (rows.drop 1).foldl (fun b r => fillBaseRow keyMap b ((cellsOf r).map cleanN)) emptyBaseAttrs

mutual
/-- Remove descendant spans whose class list contains `mc-tooltips` or
`mdi` (`span.extract()` in `get_pure_text`). -/
def scrubIcons : Node → Node
  | .text s => .text s
  | .elem t st cl cs => .elem t st cl (scrubIconsList cs)
def scrubIconsList : List Node → List Node
  | [] => []
  | c :: cs =>
    if tagOf c = some "span" ∧
        ("mc-tooltips" ∈ classesOf c ∨ "mdi" ∈ classesOf c) then scrubIconsList cs
    else scrubIcons c :: scrubIconsList cs
end

/-- `get_pure_text(elem)`: drop `mc-tooltips`/`mdi` icon spans, then join
the stripped strings with no separator. -/
def get_pure_text (e : Option Node) : String :=
  match e with
  | none => ""
  | some n => getTextStrip "" (scrubIcons n)

def extra_key_map : List (String × String) :=
  [("再部署时间", "redployment_time"), ("初始部署费用", "initial_deployment_cost"),
   ("攻击间隔", "attack_interval"), ("阻挡数", "block_count"),
   ("所属势力", "faction"), ("隐藏势力", "hidden_faction")]

/-- One row of the extra-attribute table: needs both a `<th>` and a `<td>`;
the header text is fuzzy-matched (substring containment, first match wins)
against the known field names; empty header or value text skips the row. -/
def parseExtraRow (acc : List (String × String)) (r : Node) : List (String × String) :=
  let ths := findAllTag "th" r
  let tds := findAllTag "td" r
  if ths.isEmpty ∨ tds.isEmpty then acc
  else
    let thText := get_pure_text ths.head?
    if thText = "" then acc
    else
      match extra_key_map.find? (fun p => strContains thText p.1) with
      | none => acc
      | some pair =>
        let tdText := get_pure_text tds.head?
        if tdText = "" then acc else insertKV acc pair.2 tdText

structure AttrsResult where
  base_attributes : BaseAttrs
  extra_attributes : List (String × String)
deriving DecidableEq, Repr

/-- `parse_attrs`: a missing base table leaves the five empty tier maps; a
missing extra table returns early with no extra attributes. -/
def parse_attrs (baseTbl extraTbl : Option Node) : AttrsResult :=
  let base := match baseTbl with
    | none => emptyBaseAttrs
    | some t => parseBaseTbl t
  match extraTbl with
  | none => { base_attributes := base, extra_attributes := [] }
  | some t =>
    { base_attributes := base
      extra_attributes := (findAllTag "tr" t).foldl parseExtraRow [] }

structure Chara where
  branch_name : String
  branch_description : String
  trait_details : String
deriving DecidableEq, Repr

/-- First row index whose `tag.string` contains the pattern
(`find("tr", string=re.compile(pat))`). -/
def findStringRow (pat : String) (rows : List Node) : Option Nat :=
  rows.findIdx? (fun r =>
    match stringOf r with
    | some s => strContains s pat
    | none => false)

/-- `parse_chara`: row 1 supplies branch name/description; the row after
the `分支信息` row supplies the concatenated `<li>` trait details.  All
absences yield empty strings. -/
def parse_chara (traitTbl : Option Node) : Chara :=
  match traitTbl with
  | none => ⟨"", "", ""⟩
  | some t =>
    let rows := findAllTag "tr" t
    let bn := match rows.get? 1 with
      | none => ""
      | some r1 =>
        match (findAllTag "td" r1).get? 0 with
        | some td => cleanN td
        | none => ""
    let bd := match rows.get? 1 with
      | none => ""
      | some r1 =>
        match (findAllTag "td" r1).get? 1 with
        | some td => cleanN td
        | none => ""
    let td := match findStringRow "分支信息" rows with
      | none => ""
      | some i =>
        match rows.get? (i + 1) with
        | none => ""
        | some nr => String.join ((findAllTag "li" nr).map (fun li => clean_desc (some li)))
    ⟨bn, bd, td⟩

/-! ## The assembled record (`parse_all`) -/

/-- The per-page inputs of the section extractors: each `none` models the
corresponding page section being absent. -/
structure Page where
  baseTbl : Option Node
  extraTbl : Option Node
  traitTbl : Option Node
  talentSec : Option TalentSection
  skillChain : Option (List Node)
  termCands : Option (List Cand)

structure DetailRecord where
  operator_name : String
  characteristic : Chara
  attributes : AttrsResult
  talents : List Talent
  skills : List Skill
  terms : List Term
deriving DecidableEq, Repr

/-- `parse_all` (metadata fields other than the name are omitted): run
every section extractor and assemble the record; a talent-extractor
`IndexError` propagates. -/
def parse_all (name : String) (descMin : Nat) (pageAlive : Bool) (p : Page) :
    Except String DetailRecord :=
  match parse_talents p.talentSec with
  | .error e => .error e
  | .ok tal =>
    .ok
      { operator_name := name
        characteristic := parse_chara p.traitTbl
        attributes := parse_attrs p.baseTbl p.extraTbl
        talents := tal
        skills := parse_skills p.skillChain
        terms := parse_terms descMin pageAlive p.termCands }

/-! ## Shared render-surface pool (`init_shared_browser` / `close_shared_browser`)
and page acquisition (`_init_browser_page`)

External Playwright effects are oracles: booleans saying whether each
`await` succeeds.  The class-level fields are a `PoolState`. -/

structure PoolState where
  pw : Option Nat
  browser : Option Nat
  context : Option Nat
  initialized : Bool
deriving DecidableEq, Repr

/-- Whether each launch step succeeds (`async_playwright().start()`,
`chromium.launch(...)`, `browser.new_context(...)`). -/
structure LaunchOracle where
  startOk : Bool
  launchOk : Bool
  contextOk : Bool
deriving DecidableEq, Repr

/-- Whether each teardown step succeeds (`context.close()`,
`browser.close()`, `playwright.stop()`). -/
structure CloseOracle where
  ctxCloseOk : Bool
  browserCloseOk : Bool
  stopOk : Bool
deriving DecidableEq, Repr

structure CloseResult where
  raised : Bool
  state : PoolState
deriving DecidableEq, Repr

/-- `close_shared_browser`: close context, then browser, then stop the
driver — each step only when the handle exists, each `await` unguarded, so
a failure raises immediately and the class fields (reset only after all
three steps) keep their old values. -/
def close_shared_browser (st : PoolState) (o : CloseOracle) : CloseResult :=
  if st.context.isSome ∧ ¬ o.ctxCloseOk then ⟨true, st⟩
  else if st.browser.isSome ∧ ¬ o.browserCloseOk then ⟨true, st⟩
  else if st.pw.isSome ∧ ¬ o.stopOk then ⟨true, st⟩
  else ⟨false, ⟨none, none, none, false⟩⟩

structure InitResult where
  raised : Bool
  state : PoolState
  ctx : Option Nat
  browserLaunches : Nat
  contextsCreated : Nat
  closes : Nat
deriving DecidableEq, Repr

/-- `init_shared_browser`: when the initialized flag is set, return the
shared context untouched; otherwise start the driver, launch one browser,
create one context, and set the flag.  On any failure the `except` branch
runs `close_shared_browser` and re-raises. -/
def init_shared_browser (st : PoolState) (o : LaunchOracle) (co : CloseOracle) :
    InitResult :=
  if st.initialized then ⟨false, st, st.context, 0, 0, 0⟩
  else if ¬ o.startOk then
    ⟨true, (close_shared_browser st co).state, none, 0, 0, 1⟩
  else
    let st1 : PoolState := { st with pw := some 1 }
    if ¬ o.launchOk then
      ⟨true, (close_shared_browser st1 co).state, none, 0, 0, 1⟩
    else
      let st2 : PoolState := { st1 with browser := some 1 }
      if ¬ o.contextOk then
        ⟨true, (close_shared_browser st2 co).state, none, 1, 0, 1⟩
      else
        ⟨false, { st2 with context := some 1, initialized := true }, some 1, 1, 1, 0⟩

/-- Kinds of failure the claims distinguish: the render surface reporting
itself closed/crashed, or anything else. -/
inductive FailKind where
  | crashed
  | other
deriving DecidableEq, Repr

/-- Outcome of one page-acquisition attempt after a successful
`init_shared_browser`: success, a failure before `new_page()` assigned the
page, or a failure after (navigation, selector wait, ...). -/
inductive AttemptOutcome where
  | ok
  | failBeforePage : FailKind → AttemptOutcome
  | failAfterPage : FailKind → AttemptOutcome
deriving DecidableEq, Repr

/-- The oracle for one attempt of the retry loop. -/
structure Attempt where
  launch : LaunchOracle
  after : AttemptOutcome
deriving DecidableEq, Repr

structure FetchResult where
  raised : Bool
  attemptsUsed : Nat
  pageClosures : Nat
  pool : PoolState
  teardowns : Nat
deriving DecidableEq, Repr

/-- The retry loop of `_init_browser_page` (`for attempt in
range(max_retries)` with `max_retries = 3`).  `fuel` counts the remaining
attempts; `fuel = 0` inside the body corresponds to
`attempt == max_retries - 1`, where the exception is re-raised.  On a
non-final failure the page, when one was created, is closed before
retrying.  The pool state is threaded through `init_shared_browser`;
`teardowns` counts `close_shared_browser` runs. -/
def pageLoop (att : Nat → Attempt) (co : CloseOracle) :
    Nat → Nat → PoolState → Nat → Nat → FetchResult
  | 0, attempt, st, closures, tds => ⟨true, attempt, closures, st, tds⟩
  | fuel + 1, attempt, st, closures, tds =>
    let a := att attempt
    let ir := init_shared_browser st a.launch co
    if ir.raised then
      if fuel = 0 then ⟨true, attempt + 1, closures, ir.state, tds + ir.closes⟩
      else pageLoop att co fuel (attempt + 1) ir.state closures (tds + ir.closes)
    else
      match a.after with
      | .ok => ⟨false, attempt + 1, closures, ir.state, tds + ir.closes⟩
      | .failBeforePage _ =>
        if fuel = 0 then ⟨true, attempt + 1, closures, ir.state, tds + ir.closes⟩
        else pageLoop att co fuel (attempt + 1) ir.state closures (tds + ir.closes)
      | .failAfterPage _ =>
        if fuel = 0 then ⟨true, attempt + 1, closures, ir.state, tds + ir.closes⟩
        else pageLoop att co fuel (attempt + 1) ir.state (closures + 1) (tds + ir.closes)

/-- `_init_browser_page` with `max_retries = 3`. -/
def init_browser_page (att : Nat → Attempt) (co : CloseOracle) (st : PoolState) :
    FetchResult :=
  pageLoop att co 3 0 st 0 0

/-! ## Roster rarity correction (`operators_list_get.parse`) -/

/-- The rarity correction of `OperatorListCrawler.parse`:
`str(int(raw_data["data-rarity"] or "0") + 1)`; `none` models the
`ValueError` Python would raise on a non-numeric attribute. -/
def parse_rarity (raw : String) : Option String :=
  (pyInt (if raw = "" then "0" else raw)).map (fun n => toString (n + 1))

/-! ## Concrete pages used by counterexamples and witnesses -/

/-- Header row of the sample talent tables. -/
def talentRowHdr : Node := .elem "tr" "" [] [.elem "th" "" [] [.text "天赋"]]

/-- A detail row whose leading cell is empty: it contributes a detail entry
but no talent name. -/
def talentRowNoName : Node := .elem "tr" "" []
  [.elem "td" "" [] [], .elem "td" "" [] [.text "条件"], .elem "td" "" [] [.text "描述"]]

/-- A detail row with a talent name in its leading cell. -/
def talentRowNamed : Node := .elem "tr" "" []
  [.elem "td" "" [] [.text "天赋名"], .elem "td" "" [] [.text "条件"],
   .elem "td" "" [] [.text "描述"]]

/-- A header-only trailing row (the remarks header). -/
def talentRowTail : Node := .elem "tr" "" [] [.elem "th" "" [] [.text "备注"]]

/-- A talent table whose only detail row has an empty name cell. -/
def talentTblNoName : Node :=
  .elem "table" "" ["wikitable"] [talentRowHdr, talentRowNoName, talentRowTail]

/-- A talent table with a named detail row. -/
def talentTblNamed : Node :=
  .elem "table" "" ["wikitable"] [talentRowHdr, talentRowNamed, talentRowTail]

/-- One single-cell data row for the sample skill table. -/
def skillCell (s : String) : Node := .elem "td" "" [] [.text s]

/-- A filler row of the sample skill table. -/
def skillRowPlain : Node := .elem "tr" "" [] [skillCell "x"]

/-- Header row of the sample skill table. -/
def skillRow0 : Node := .elem "tr" "" []
  [skillCell "n", .elem "td" "" [] [.elem "big" "" [] [.text "技能名"]], skillCell "t"]

/-- A level row with 5 cells (sits at index 8 below). -/
def skillRow8 : Node := .elem "tr" "" []
  [skillCell "7", skillCell "desc", skillCell "30", skillCell "25", skillCell "15"]

/-- A 9-row skill table whose index-8 row has 5 cells. -/
def skillTbl9 : Node := .elem "table" "" ["wikitable"]
  [skillRow0, skillRowPlain, skillRowPlain, skillRowPlain, skillRowPlain,
   skillRowPlain, skillRowPlain, skillRowPlain, skillRow8]

/-- A glossary candidate whose hover times out. -/
def candFailing : Cand := ⟨"挑衅", ["mc-tooltips-1"], .errCounted⟩

/-- A glossary candidate with the same cleaned text that resolves. -/
def candResolving : Cand := ⟨"挑衅", ["mc-tooltips-1"], .tip "术语" "一段 足够长的描述文本"⟩

/-! ## Helper lemmas: string primitives -/

theorem mem_collapseAux {r c : Char} :
    ∀ (l : List Char) (b : Bool), c ∈ collapseAux r l b → c = r ∨ pyWs c = false := by
  intro l
  induction l with
  | nil => intro b h; simp [collapseAux] at h
  | cons x xs ih =>
    intro b h
    by_cases hx : pyWs x
    · cases b with
      | true => simp only [collapseAux, hx, if_true] at h; exact ih _ h
      | false =>
        simp only [collapseAux, hx, if_true] at h
        rcases List.mem_cons.mp h with h1 | h1
        · exact Or.inl h1
        · exact ih _ h1
    · simp only [collapseAux, hx, if_false, Bool.false_eq_true] at h
      rcases List.mem_cons.mp h with h1 | h1
      · subst h1; exact Or.inr (by simpa using hx)
      · exact ih _ h1

theorem mem_removePlus {c : Char} : ∀ l : List Char, c ∈ removePlus l → c ∈ l := by
  intro l
  induction l using removePlus.induct with
  | case1 => intro h; simp [removePlus] at h
  | case2 a => intro h; simpa [removePlus] using h
  | case3 a b => intro h; simpa [removePlus] using h
  | case4 a b d cs hp ih =>
    intro h
    rw [removePlus, if_pos hp] at h
    simp only [List.mem_cons]
    exact Or.inr (Or.inr (Or.inr (ih h)))
  | case5 a b d cs hp ih =>
    intro h
    rw [removePlus, if_neg hp] at h
    rcases List.mem_cons.mp h with h1 | h1
    · simp [h1]
    · simp only [List.mem_cons]
      rcases List.mem_cons.mp (ih h1) with h2 | h2
      · exact Or.inr (Or.inl h2)
      · rcases List.mem_cons.mp h2 with h3 | h3
        · exact Or.inr (Or.inr (Or.inl h3))
        · exact Or.inr (Or.inr (Or.inr h3))

theorem mem_stripWs {c : Char} (l : List Char) (h : c ∈ stripWs l) : c ∈ l := by
  unfold stripWs at h
  rw [List.mem_reverse] at h
  have h2 := ((l.dropWhile pyWs).reverse.dropWhile_suffix pyWs).sublist.subset h
  rw [List.mem_reverse] at h2
  exact (l.dropWhile_suffix pyWs).sublist.subset h2

theorem dropWhile_idem (p : Char → Bool) : ∀ l : List Char,
    (l.dropWhile p).dropWhile p = l.dropWhile p := by
  intro l
  induction l with
  | nil => simp
  | cons x xs ih =>
    by_cases hx : p x
    · simp [List.dropWhile_cons, hx, ih]
    · simp [List.dropWhile_cons, hx]

theorem dropWhile_eq_self_of_prefix {p : Char → Bool} :
    ∀ {k m : List Char}, k <+: m → m.dropWhile p = m → k.dropWhile p = k := by
  intro k m hkm hm
  cases k with
  | nil => simp
  | cons a k2 =>
    rcases hkm with ⟨t, ht⟩
    subst ht
    rw [List.cons_append] at hm
    by_cases ha : p a
    · exfalso
      rw [List.dropWhile_cons, if_pos ha] at hm
      have hlen := congrArg List.length hm
      have hle := ((k2 ++ t).dropWhile_suffix p).length_le
      simp at hlen hle
      omega
    · simp [List.dropWhile_cons, ha]

theorem stripWs_front (l : List Char) : (stripWs l).dropWhile pyWs = stripWs l := by
  unfold stripWs
  refine dropWhile_eq_self_of_prefix ?_ (dropWhile_idem pyWs l)
  rcases ((l.dropWhile pyWs).reverse.dropWhile_suffix pyWs) with ⟨s, hs⟩
  refine ⟨s.reverse, ?_⟩
  have h2 := congrArg List.reverse hs
  simpa using h2

theorem stripWs_back (l : List Char) :
    (stripWs l).reverse.dropWhile pyWs = (stripWs l).reverse := by
  unfold stripWs
  rw [List.reverse_reverse]
  exact dropWhile_idem pyWs _

/-! ## Claim C6 — roster rarity correction -/

/-- C6: for every roster entry with raw rarity in the source range 0–5, the
parsed rarity is the raw value plus one (raw "0" → "1", ..., raw "5" →
"6"). -/
theorem rarity_plus_one (n : Nat) (h : n ≤ 5) :
    parse_rarity (toString n) = some (toString (n + 1)) := by
  interval_cases n <;> decide

/-- Witness for `rarity_plus_one` at both ends of the raw range. -/
theorem rarity_plus_one_witness :
    parse_rarity "0" = some "1" ∧ parse_rarity "5" = some "6" :=
  ⟨rarity_plus_one 0 (by decide), rarity_plus_one 5 (by decide)⟩

/-! ## Claim C7 — idempotent render-surface acquisition -/

/-- C7: when the pool is initialized, `init_shared_browser` returns the
existing shared context and launches nothing; when uninitialized and every
launch step succeeds, it launches exactly one browser and creates exactly
one context, ending initialized. -/
theorem acquire_idempotent (st : PoolState) (o : LaunchOracle) (co : CloseOracle) :
    (st.initialized = true →
      init_shared_browser st o co = ⟨false, st, st.context, 0, 0, 0⟩) ∧
    (st.initialized = false → o.startOk = true → o.launchOk = true →
      o.contextOk = true →
      init_shared_browser st o co =
        ⟨false, ⟨some 1, some 1, some 1, true⟩, some 1, 1, 1, 0⟩) := by
  constructor
  · intro h
    simp [init_shared_browser, h]
  · intro h h1 h2 h3
    simp [init_shared_browser, h, h1, h2, h3]

/-- Witness for `acquire_idempotent`: an initialized pool is returned
untouched; a fresh pool launches one browser and one context. -/
theorem acquire_idempotent_witness :
    init_shared_browser ⟨some 1, some 1, some 1, true⟩ ⟨true, true, true⟩
        ⟨true, true, true⟩ =
      ⟨false, ⟨some 1, some 1, some 1, true⟩, some 1, 0, 0, 0⟩ ∧
    init_shared_browser ⟨none, none, none, false⟩ ⟨true, true, true⟩
        ⟨true, true, true⟩ =
      ⟨false, ⟨some 1, some 1, some 1, true⟩, some 1, 1, 1, 0⟩ :=
  ⟨(acquire_idempotent _ _ _).1 rfl, (acquire_idempotent _ _ _).2 rfl rfl rfl rfl⟩

/-! ## Claim C3 — render-surface teardown -/

/-- C3 counterexample: with a fully live pool, a failing `context.close()`
makes `close_shared_browser` raise and leaves the pool state fully
initialized — the error is neither tolerated nor is the state reset, as
the claim asserts. -/
theorem release_error_counterexample :
    close_shared_browser ⟨some 1, some 1, some 1, true⟩ ⟨false, true, true⟩ =
      ⟨true, ⟨some 1, some 1, some 1, true⟩⟩ := by decide

/-- C3 (amended): teardown closes context, then browser, then driver, but
an error at any step propagates (is not caught) and skips the state reset;
only an error-free teardown resets the pool to uninitialized. -/
theorem release_reset_on_success_only (st : PoolState) (o : CloseOracle) :
    ((close_shared_browser st o).raised = false →
      (close_shared_browser st o).state = ⟨none, none, none, false⟩) ∧
    ((close_shared_browser st o).raised = true →
      (close_shared_browser st o).state = st) := by
  unfold close_shared_browser
  split
  · simp
  · split
    · simp
    · split <;> simp

/-- Witness for `release_reset_on_success_only`: a clean teardown resets
the state; a failing teardown leaves it untouched. -/
theorem release_reset_on_success_only_witness :
    (close_shared_browser ⟨some 1, some 1, some 1, true⟩ ⟨true, true, true⟩).state =
      ⟨none, none, none, false⟩ ∧
    (close_shared_browser ⟨some 1, some 1, some 1, true⟩ ⟨false, true, true⟩).state =
      ⟨some 1, some 1, some 1, true⟩ :=
  ⟨(release_reset_on_success_only _ _).1 rfl,
   (release_reset_on_success_only _ _).2 rfl⟩

/-! ## Claim C4 — empty page yields a fully-keyed empty record -/

/-- C4: on a detail page with no recognisable section (no attribute
tables, no trait table, no talent heading, no skill heading, no glossary
content), `parse_all` raises nothing and returns a record carrying every
section field with an empty value. -/
theorem empty_page_full_record (name : String) (dm : Nat) (pa : Bool) (p : Page)
    (h1 : p.baseTbl = none) (h2 : p.extraTbl = none) (h3 : p.traitTbl = none)
    (h4 : p.talentSec = none) (h5 : p.skillChain = none) (h6 : p.termCands = none) :
    parse_all name dm pa p =
      .ok ⟨name, ⟨"", "", ""⟩, ⟨⟨[], [], [], [], []⟩, []⟩, [], [], []⟩ := by
  obtain ⟨b, e, t, ts, sc, tc⟩ := p
  simp only at h1 h2 h3 h4 h5 h6
  subst h1 h2 h3 h4 h5 h6
  rfl

/-- Witness for `empty_page_full_record` on a concrete empty page. -/
theorem empty_page_full_record_witness :
    parse_all "阿米娅" 10 true ⟨none, none, none, none, none, none⟩ =
      .ok ⟨"阿米娅", ⟨"", "", ""⟩, ⟨⟨[], [], [], [], []⟩, []⟩, [], [], []⟩ :=
  empty_page_full_record "阿米娅" 10 true _ rfl rfl rfl rfl rfl rfl

/-! ## Claim C1 — talent emission condition -/

/-- C1 counterexample: a talent table whose only detail row has an empty
leading cell.  The row loop accumulates one detail entry and no name, yet
`parse_single_talent` drops the talent and `parse_talents` emits nothing —
refuting the claim that a talent with empty name but non-empty details is
emitted. -/
theorem talent_emit_counterexample :
    talentLoop 3 "第一天赋" (findAllTag "tr" talentTblNoName) 0 "" [] false =
      .ok ("", [⟨"条件", "", ""⟩], "") ∧
    parse_single_talent talentTblNoName "第一天赋" "第一天赋" = .ok none ∧
    parse_talents (some ⟨some talentTblNoName, none⟩) = .ok [] :=
  ⟨rfl, rfl, rfl⟩

/-- Every talent returned by `parse_single_talent` has a non-empty name
and a non-empty detail list. -/
theorem single_talent_fields {table : Node} {tt pfx : String} {t : Talent}
    (h : parse_single_talent table tt pfx = .ok (some t)) :
    t.talent_name ≠ "" ∧ t.details ≠ [] := by
  unfold parse_single_talent at h
  cases hres : talentLoop (findAllTag "tr" table).length pfx (findAllTag "tr" table)
      0 "" [] false with
  | error e => rw [hres] at h; simp at h
  | ok trip =>
    obtain ⟨name, details, remark⟩ := trip
    rw [hres] at h
    simp only at h
    by_cases hc : name ≠ "" ∧ details ≠ []
    · rw [if_pos hc] at h
      simp only [Except.ok.injEq, Option.some.injEq] at h
      subst h
      exact hc
    · rw [if_neg hc] at h
      simp at h

/-- C1 (amended): a parsed talent is emitted by `parse_talents` iff both
its name and its detail list are non-empty; a talent missing either one is
dropped. -/
theorem talent_emit_requires_name_and_details
    (sec : Option TalentSection) (ts : List Talent)
    (h : parse_talents sec = .ok ts) :
    ∀ t ∈ ts, t.talent_name ≠ "" ∧ t.details ≠ [] := by
  intro t ht
  cases sec with
  | none =>
    simp [parse_talents] at h
    subst h
    simp at ht
  | some s =>
    unfold parse_talents at h
    simp only at h
    cases hf : s.firstTbl with
    | none =>
      rw [hf] at h
      simp at h
      subst h
      simp at ht
    | some tbl1 =>
      rw [hf] at h
      simp only at h
      cases h1 : parse_single_talent tbl1 "第一天赋" "第一天赋" with
      | error e => rw [h1] at h; simp at h
      | ok r1 =>
        rw [h1] at h
        simp only at h
        cases hs : s.secondTbl with
        | none =>
          rw [hs] at h
          cases r1 with
          | none =>
            simp at h
            subst h
            simp at ht
          | some t1 =>
            simp at h
            subst h
            simp at ht
            subst ht
            exact single_talent_fields h1
        | some tbl2 =>
          rw [hs] at h
          simp only at h
          cases h2 : parse_single_talent tbl2 "第二天赋" "第二天赋" with
          | error e => rw [h2] at h; cases r1 <;> simp at h
          | ok r2 =>
            rw [h2] at h
            cases r1 with
            | none =>
              cases r2 with
              | none =>
                simp at h
                subst h
                simp at ht
              | some t2 =>
                simp at h
                subst h
                simp at ht
                subst ht
                exact single_talent_fields h2
            | some t1 =>
              cases r2 with
              | none =>
                simp at h
                subst h
                simp at ht
                subst ht
                exact single_talent_fields h1
              | some t2 =>
                simp at h
                subst h
                simp at ht
                rcases ht with ht | ht
                · subst ht; exact single_talent_fields h1
                · subst ht; exact single_talent_fields h2

/-- Witness for `talent_emit_requires_name_and_details`: a concrete talent
table with a named detail row is emitted, with non-empty name and
details. -/
theorem talent_emit_requires_name_and_details_witness :
    (⟨"第一天赋", "天赋名", "", [⟨"条件", "", ""⟩]⟩ : Talent).talent_name ≠ "" ∧
    (⟨"第一天赋", "天赋名", "", [⟨"条件", "", ""⟩]⟩ : Talent).details ≠ [] :=
  talent_emit_requires_name_and_details (some ⟨some talentTblNamed, none⟩)
    [⟨"第一天赋", "天赋名", "", [⟨"条件", "", ""⟩]⟩] rfl _ (List.mem_singleton_self _)

/-! ## Claim C10 — synthetic unlock condition -/

theorem skillHeaderUpd_preserves (tds : List Node) (s : Skill) :
    (skillHeaderUpd tds s).unlock_condition = s.unlock_condition ∧
    (skillHeaderUpd tds s).skill_number = s.skill_number ∧
    (skillHeaderUpd tds s).skill_levels = s.skill_levels ∧
    (skillHeaderUpd tds s).remark = s.remark := by
  unfold skillHeaderUpd
  rcases h1 : tds.get? 1 with _ | td1 <;> rcases h2 : tds.get? 2 with _ | td2 <;>
    simp [h1, h2]

theorem skillLoop_preserves (total : Nat) :
    ∀ (rows : List Node) (idx : Nat) (s : Skill) (isRemark : Bool),
      (skillLoop total rows idx s isRemark).unlock_condition = s.unlock_condition ∧
      (skillLoop total rows idx s isRemark).skill_number = s.skill_number := by
  intro rows
  induction rows with
  | nil => intro idx s r; simp [skillLoop]
  | cons row rest ih =>
    intro idx s r
    simp only [skillLoop]
    split_ifs with h1 h2 h3 h35 h4 h5
    · exact ih (idx + 1) s r
    · constructor
      · rw [(ih (idx + 1) _ r).1, (skillHeaderUpd_preserves _ s).1]
      · rw [(ih (idx + 1) _ r).2, (skillHeaderUpd_preserves _ s).2.1]
    · exact ih (idx + 1) _ r
    · exact ih (idx + 1) s r
    · exact ih (idx + 1) s true
    · cases htds : findAllTag "td" row with
      | nil => simp
      | cons t0 ts => simp
    · exact ih (idx + 1) s r

/-- C10: every skill emitted by `parse_skills` carries the synthetic
unlock condition `"精英" ++ skill_number` — the unlock condition is never
read from the page markup. -/
theorem unlock_condition_synthetic (sec : Option (List Node)) :
    ∀ s ∈ parse_skills sec, s.unlock_condition = "精英" ++ toString s.skill_number := by
  intro s hs
  cases sec with
  | none => simp [parse_skills] at hs
  | some chain =>
    simp only [parse_skills] at hs
    rw [List.mem_filter] at hs
    obtain ⟨hmem, _⟩ := hs
    rw [List.mem_map] at hmem
    obtain ⟨p, hp, rfl⟩ := hmem
    unfold parse_single_skill
    have h := skillLoop_preserves (findAllTag "tr" p.2).length (findAllTag "tr" p.2) 0
      { skill_number := p.1 + 1, skill_name := "", skill_type := ""
        unlock_condition := "精英" ++ toString (p.1 + 1), remark := ""
        skill_levels := [] } false
    rw [h.1, h.2]

/-- Witness for `unlock_condition_synthetic` on a concrete skill table. -/
theorem unlock_condition_synthetic_witness :
    (parse_single_skill skillTbl9 1).unlock_condition =
      "精英" ++ toString (parse_single_skill skillTbl9 1).skill_number :=
  unlock_condition_synthetic (some [skillTbl9]) _
    (by rw [show parse_skills (some [skillTbl9]) = [parse_single_skill skillTbl9 1] from rfl]
        exact List.mem_singleton_self _)

/-! ## Claim C2 — positional skill-level capture -/

/-- Number of level-capture row positions (8 and 11) in `[idx, total)`. -/
def levelRowCount (idx total : Nat) : Nat :=
  (if idx ≤ 8 ∧ 8 < total then 1 else 0) + (if idx ≤ 11 ∧ 11 < total then 1 else 0)

theorem levelRowCount_zero {idx total : Nat} (h : total ≤ idx) :
    levelRowCount idx total = 0 := by
  unfold levelRowCount; split_ifs <;> omega

theorem levelRowCount_step_ne {idx total : Nat} (h8 : idx ≠ 8) (h11 : idx ≠ 11) :
    levelRowCount idx total = levelRowCount (idx + 1) total := by
  unfold levelRowCount; split_ifs <;> omega

theorem levelRowCount_step_hit {idx total : Nat} (h : idx = 8 ∨ idx = 11)
    (hlt : idx < total) :
    levelRowCount idx total = 1 + levelRowCount (idx + 1) total := by
  unfold levelRowCount; rcases h with h | h <;> subst h <;> split_ifs <;> omega

/-- The count of `skill_levels` entries appended by the row loop: one for
each of the positions 8 and 11 still ahead, provided those rows (when
present) carry at least 5 cells.  The remark-flag invariant (the flag is
armed only at `total - 2`) shows the early `break` can only happen at the
very last row, after both capture positions. -/
theorem skillLoop_levels_count (total : Nat) :
    ∀ (rows : List Node) (idx : Nat) (s : Skill) (isRemark : Bool),
      idx + rows.length = total →
      (isRemark = true → total - 2 < idx) →
      (∀ k r, rows.get? k = some r → (idx + k = 8 ∨ idx + k = 11) →
        5 ≤ (findAllTag "td" r).length) →
      (skillLoop total rows idx s isRemark).skill_levels.length =
        s.skill_levels.length + levelRowCount idx total := by
  intro rows
  induction rows with
  | nil =>
    intro idx s r htot hrem hc
    have hle : total ≤ idx := by simp at htot; omega
    simp only [skillLoop]
    rw [levelRowCount_zero hle]
    omega
  | cons row rest ih =>
    intro idx s r htot hrem hc
    have htot' : (idx + 1) + rest.length = total := by
      simp at htot; omega
    have hidxlt : idx < total := by
      simp at htot; omega
    have hc' : ∀ k r, rest.get? k = some r →
        ((idx + 1) + k = 8 ∨ (idx + 1) + k = 11) → 5 ≤ (findAllTag "td" r).length := by
      intro k r hk hor
      refine hc (k + 1) r (by simpa using hk) (by omega)
    simp only [skillLoop]
    by_cases h1 : (findAllTag "td" row).isEmpty = true
    · rw [if_pos h1]
      by_cases h89 : idx = 8 ∨ idx = 11
      · exfalso
        have h5c := hc 0 row (by simp) (by omega)
        rw [List.isEmpty_iff] at h1
        rw [h1] at h5c
        simp at h5c
      · rw [ih (idx + 1) s r htot' (fun hr => lt_trans (hrem hr) (by omega)) hc']
        rw [← @levelRowCount_step_ne idx total (fun h => h89 (Or.inl h))
          (fun h => h89 (Or.inr h))]
    · rw [if_neg h1]
      by_cases h2 : idx = 0
      · rw [if_pos h2]
        rw [ih (idx + 1) (skillHeaderUpd (findAllTag "td" row) s) r htot'
          (fun hr => lt_trans (hrem hr) (by omega)) hc']
        rw [(skillHeaderUpd_preserves _ s).2.2.1]
        rw [← @levelRowCount_step_ne idx total (by omega) (by omega)]
      · rw [if_neg h2]
        by_cases h3 : idx = 8 ∨ idx = 11
        · rw [if_pos h3]
          have h5c := hc 0 row (by simp) (by omega)
          rw [if_pos h5c]
          rw [ih (idx + 1) _ r htot' (fun hr => lt_trans (hrem hr) (by omega)) hc']
          rw [@levelRowCount_step_hit idx total h3 hidxlt]
          simp only [List.length_append, List.length_cons, List.length_nil]
          omega
        · rw [if_neg h3]
          by_cases h4 : idx = total - 2 ∧ (findTag "th" row).isSome = true
          · rw [if_pos h4]
            have h41 := h4.1
            rw [ih (idx + 1) s true htot' (fun _ => by omega) hc']
            rw [← @levelRowCount_step_ne idx total (by omega) (by omega)]
          · rw [if_neg h4]
            by_cases h5 : r = true
            · rw [if_pos h5]
              have hbrk := hrem h5
              cases htds : findAllTag "td" row with
              | nil => rw [List.isEmpty_iff] at h1; exact absurd htds h1
              | cons t0 ts =>
                have hcount : levelRowCount idx total = 0 := by
                  unfold levelRowCount
                  have hn8 : idx ≠ 8 := fun h => h3 (Or.inl h)
                  have hn11 : idx ≠ 11 := fun h => h3 (Or.inr h)
                  split_ifs <;> omega
                rw [hcount]
                simp
            · rw [if_neg h5]
              rw [ih (idx + 1) s r htot' (fun hr => lt_trans (hrem hr) (by omega)) hc']
              rw [← @levelRowCount_step_ne idx total (by omega) (by omega)]

/-- C2: skill-level capture is positional on zero-indexed rows 8 and 11.
When the rows at those positions (if present) have at least 5 data cells,
a table with at most 8 rows yields zero `skill_levels` entries, one with 9
to 11 rows yields exactly one, and one with 12 or more rows yields exactly
two.  `parse_single_skill` is a total function, so fewer than 12 rows is
never an error. -/
theorem skill_level_rows_positional (table : Node) (k : Nat)
    (h8 : ∀ r, (findAllTag "tr" table).get? 8 = some r →
      5 ≤ (findAllTag "td" r).length)
    (h11 : ∀ r, (findAllTag "tr" table).get? 11 = some r →
      5 ≤ (findAllTag "td" r).length) :
    (parse_single_skill table k).skill_levels.length =
      if (findAllTag "tr" table).length ≤ 8 then 0
      else if (findAllTag "tr" table).length ≤ 11 then 1 else 2 := by
  unfold parse_single_skill
  have hc : ∀ j r, (findAllTag "tr" table).get? j = some r →
      (0 + j = 8 ∨ 0 + j = 11) → 5 ≤ (findAllTag "td" r).length := by
    intro j r hj hor
    rcases hor with hor | hor
    · have hj8 : j = 8 := by omega
      subst hj8; exact h8 r hj
    · have hj11 : j = 11 := by omega
      subst hj11; exact h11 r hj
  have h := skillLoop_levels_count (findAllTag "tr" table).length
    (findAllTag "tr" table) 0
    { skill_number := k, skill_name := "", skill_type := ""
      unlock_condition := "精英" ++ toString k, remark := "", skill_levels := [] }
    false (by simp) (by simp) hc
  rw [h]
  unfold levelRowCount
  simp only [List.length_nil]
  split_ifs <;> omega

/-- Witness for `skill_level_rows_positional`: the concrete 9-row table
captures exactly one level entry. -/
theorem skill_level_rows_positional_witness :
    (parse_single_skill skillTbl9 1).skill_levels.length =
      if (findAllTag "tr" skillTbl9).length ≤ 8 then 0
      else if (findAllTag "tr" skillTbl9).length ≤ 11 then 1 else 2 :=
  skill_level_rows_positional skillTbl9 1
    (fun r hr => by
      rw [show (findAllTag "tr" skillTbl9).get? 8 = some skillRow8 from rfl] at hr
      injection hr with hr
      subst hr
      decide)
    (fun r hr => by
      rw [show (findAllTag "tr" skillTbl9).get? 11 = none from rfl] at hr
      simp at hr)

/-! ## Claim C5 — glossary dedup, first success wins -/

/-- The resolution of a single glossary candidate in isolation, read off
the per-candidate body of `parse_terms`: `none` when the candidate is
skipped or fails (empty name, no `mc-tooltips` class token, browser
failure, no tooltip, description below the minimum length); otherwise the
constructed term. -/
def resolveCand (descMin : Nat) (c : Cand) : Option Term :=
  if c.name = "" then none
  else if (c.classes.filter (fun cl => strContains cl "mc-tooltips")) = [] then none
  else
    match c.outcome with
    | .tip ttypeRaw desc => mkTermOfTip descMin c ttypeRaw desc
    | _ => none

theorem finalDedup_nodup : ∀ (l : List Term) (seen : List String),
    ((finalDedup l seen).map Term.term_name).Nodup ∧
    ∀ x ∈ (finalDedup l seen).map Term.term_name, x ∉ seen := by
  intro l
  induction l with
  | nil => intro seen; simp [finalDedup]
  | cons t rest ih =>
    intro seen
    by_cases h : t.term_name ∈ seen
    · simp only [finalDedup, if_pos h]
      exact ih seen
    · simp only [finalDedup, if_neg h, List.map_cons]
      refine ⟨?_, ?_⟩
      · rw [List.nodup_cons]
        refine ⟨?_, (ih _).1⟩
        intro hmem
        have hnot := (ih (seen ++ [t.term_name])).2 _ hmem
        simp at hnot
      · intro x hx
        rcases List.mem_cons.mp hx with hx | hx
        · subst hx; exact h
        · have hnot := (ih (seen ++ [t.term_name])).2 x hx
          intro hxs
          exact hnot (by simp [hxs])

theorem parse_terms_names_nodup (dm : Nat) (pa : Bool) (cands : Option (List Cand)) :
    ((parse_terms dm pa cands).map Term.term_name).Nodup := by
  unfold parse_terms
  cases cands with
  | none => simp
  | some cs =>
    simp only
    split_ifs with hlen hpa
    all_goals first
      | exact (finalDedup_nodup _ _).1
      | simp

theorem termsLoop_step (dm mt : Nat) (c : Cand) (rest : List Cand) (seen : List String)
    (terms : List Term) (p : Nat) (hp : p < mt) (hname : c.name ≠ "")
    (hseen : c.name ∉ seen) (hcrash : c.outcome ≠ .crash) :
    (resolveCand dm c = none →
      ∃ p2, p2 ≤ p + 1 ∧
        termsLoop dm mt (c :: rest) seen terms p = termsLoop dm mt rest seen terms p2) ∧
    (∀ t, resolveCand dm c = some t →
      termsLoop dm mt (c :: rest) seen terms p =
        termsLoop dm mt rest (seen ++ [c.name]) (terms ++ [t]) (p + 1)) := by
  have hnotor : ¬ (c.name = "" ∨ c.name ∈ seen) := not_or.mpr ⟨hname, hseen⟩
  constructor
  · intro hres
    rw [termsLoop]
    rw [if_neg (by omega), if_neg hnotor]
    unfold resolveCand at hres
    rw [if_neg hname] at hres
    by_cases hcl : (c.classes.filter (fun cl => strContains cl "mc-tooltips")) = []
    · rw [if_pos hcl]
      exact ⟨p, by omega, rfl⟩
    · rw [if_neg hcl]
      rw [if_neg hcl] at hres
      cases ho : c.outcome with
      | crash => exact absurd ho hcrash
      | errCounted => exact ⟨p + 1, le_refl _, by simp only [ho]⟩
      | noTip => exact ⟨p, by omega, by simp only [ho]⟩
      | tip tr d =>
        rw [ho] at hres
        simp only at hres
        exact ⟨p, by omega, by simp only [ho, hres]⟩
  · intro t hres
    rw [termsLoop]
    rw [if_neg (by omega), if_neg hnotor]
    unfold resolveCand at hres
    rw [if_neg hname] at hres
    by_cases hcl : (c.classes.filter (fun cl => strContains cl "mc-tooltips")) = []
    · rw [if_pos hcl] at hres; simp at hres
    · rw [if_neg hcl]
      rw [if_neg hcl] at hres
      cases ho : c.outcome with
      | crash => exact absurd ho hcrash
      | errCounted => rw [ho] at hres; simp at hres
      | noTip => rw [ho] at hres; simp at hres
      | tip tr d =>
        rw [ho] at hres
        simp only at hres
        simp only [ho, hres]

theorem terms_two_cand (dm : Nat) (a b : Cand) (hab : a.name = b.name)
    (hname : a.name ≠ "") (ha : a.outcome ≠ .crash) (hb : b.outcome ≠ .crash) :
    parse_terms dm true (some [a, b]) =
      match resolveCand dm a with
      | some t => [t]
      | none => (resolveCand dm b).toList := by
  have hbname : b.name ≠ "" := by rw [← hab]; exact hname
  unfold parse_terms
  simp only
  rw [if_neg (by simp), if_neg (by simp)]
  cases hra : resolveCand dm a with
  | some t =>
    rw [(termsLoop_step dm (min ([a, b].length) 20) a [b] [] [] 0 (by simp) hname
      (by simp) ha).2 t hra]
    rw [termsLoop]
    rw [if_neg (by simp)]
    rw [if_pos (Or.inr (by simp [hab]))]
    simp only [termsLoop, List.nil_append]
    simp [finalDedup]
  | none =>
    obtain ⟨p2, hp2, hstep⟩ :=
      (termsLoop_step dm (min ([a, b].length) 20) a [b] [] [] 0 (by simp) hname
        (by simp) ha).1 hra
    rw [hstep]
    cases hrb : resolveCand dm b with
    | some t =>
      rw [(termsLoop_step dm (min ([a, b].length) 20) b [] [] [] p2 (by simp; omega)
        hbname (by simp) hb).2 t hrb]
      simp only [termsLoop, List.nil_append]
      simp [finalDedup]
    | none =>
      obtain ⟨p3, _, hstep2⟩ :=
        (termsLoop_step dm (min ([a, b].length) 20) b [] [] [] p2 (by simp; omega)
          hbname (by simp) hb).1 hrb
      rw [hstep2]
      simp [termsLoop, finalDedup]

/-- C5: glossary extraction deduplicates by term name with
first-success-wins.  Every `term_name` in the output of `parse_terms` is
unique, and for two candidate spans with identical cleaned text the output
holds exactly the first successfully resolved one (the second is attempted
only when the first failed). -/
theorem terms_dedup_first_success :
    (∀ (dm : Nat) (pa : Bool) (cands : Option (List Cand)),
      ((parse_terms dm pa cands).map Term.term_name).Nodup) ∧
    (∀ (dm : Nat) (a b : Cand), a.name = b.name → a.name ≠ "" →
      a.outcome ≠ TipOutcome.crash → b.outcome ≠ TipOutcome.crash →
      parse_terms dm true (some [a, b]) =
        match resolveCand dm a with
        | some t => [t]
        | none => (resolveCand dm b).toList) :=
  ⟨parse_terms_names_nodup, terms_two_cand⟩

/-- Witness for `terms_dedup_first_success`: a failing candidate followed
by a successfully resolving duplicate. -/
theorem terms_dedup_first_success_witness :
    parse_terms 5 true (some [candFailing, candResolving]) =
      (match resolveCand 5 candFailing with
       | some t => [t]
       | none => (resolveCand 5 candResolving).toList) :=
  terms_dedup_first_success.2 5 candFailing candResolving rfl (by decide) (by decide)
    (by decide)

/-! ## Claim C9 — bounded page-acquisition retry -/

/-- With an initialized pool, `init_shared_browser` returns the shared
context and performs no effect, whatever the oracles say. -/
theorem init_noop {st : PoolState} (h : st.initialized = true)
    (o : LaunchOracle) (co : CloseOracle) :
    init_shared_browser st o co = ⟨false, st, st.context, 0, 0, 0⟩ := by
  simp [init_shared_browser, h]

/-- Pages closed by the retry handler for one failed non-final attempt:
one page when the failure happened after `new_page()`, none otherwise. -/
def failCost : AttemptOutcome → Nat
  | .failAfterPage _ => 1
  | _ => 0

theorem pageLoop_succ (att : Nat → Attempt) (co : CloseOracle) (fuel attempt : Nat)
    (st : PoolState) (closures tds : Nat) (hinit : st.initialized = true) :
    pageLoop att co (fuel + 1) attempt st closures tds =
      match (att attempt).after with
      | .ok => ⟨false, attempt + 1, closures, st, tds⟩
      | .failBeforePage _ =>
        if fuel = 0 then ⟨true, attempt + 1, closures, st, tds⟩
        else pageLoop att co fuel (attempt + 1) st closures tds
      | .failAfterPage _ =>
        if fuel = 0 then ⟨true, attempt + 1, closures, st, tds⟩
        else pageLoop att co fuel (attempt + 1) st (closures + 1) tds := by
  rw [pageLoop, init_noop hinit]
  cases (att attempt).after <;> simp

/-- Closed-form evaluation of the three-attempt retry loop over an
initialized pool. -/
theorem init_browser_page_eval (att : Nat → Attempt) (co : CloseOracle) (st : PoolState)
    (hinit : st.initialized = true) :
    init_browser_page att co st =
      match (att 0).after with
      | .ok => ⟨false, 1, 0, st, 0⟩
      | a0 =>
        match (att 1).after with
        | .ok => ⟨false, 2, failCost a0, st, 0⟩
        | a1 =>
          match (att 2).after with
          | .ok => ⟨false, 3, failCost a0 + failCost a1, st, 0⟩
          | _ => ⟨true, 3, failCost a0 + failCost a1, st, 0⟩ := by
  unfold init_browser_page
  rw [pageLoop_succ att co 2 0 st 0 0 hinit]
  cases ha0 : (att 0).after with
  | ok => rfl
  | failBeforePage k0 =>
    norm_num
    rw [pageLoop_succ att co 1 1 st 0 0 hinit]
    cases ha1 : (att 1).after with
    | ok => simp [failCost]
    | failBeforePage k1 =>
      norm_num
      rw [pageLoop_succ att co 0 2 st 0 0 hinit]
      cases ha2 : (att 2).after <;> simp [failCost]
    | failAfterPage k1 =>
      norm_num
      rw [pageLoop_succ att co 0 2 st 1 0 hinit]
      cases ha2 : (att 2).after <;> simp [failCost]
  | failAfterPage k0 =>
    norm_num
    rw [pageLoop_succ att co 1 1 st 1 0 hinit]
    cases ha1 : (att 1).after with
    | ok => simp [failCost]
    | failBeforePage k1 =>
      norm_num
      rw [pageLoop_succ att co 0 2 st 1 0 hinit]
      cases ha2 : (att 2).after <;> simp [failCost]
    | failAfterPage k1 =>
      norm_num
      rw [pageLoop_succ att co 0 2 st 2 0 hinit]
      cases ha2 : (att 2).after <;> simp [failCost]

/-- C9 counterexample: the render surface reports a crash on every
attempt, yet the pool is never torn down or reinitialized — after the
three failed attempts the fetch raises with the crashed pool still
registered as initialized and zero `close_shared_browser` runs, refuting
the claimed teardown-and-reinitialize behaviour. -/
theorem page_retry_crash_counterexample :
    init_browser_page (fun _ => ⟨⟨true, true, true⟩, .failAfterPage .crashed⟩)
        ⟨true, true, true⟩ ⟨some 1, some 1, some 1, true⟩ =
      ⟨true, 3, 2, ⟨some 1, some 1, some 1, true⟩, 0⟩ := by decide

/-- C9 (amended): page acquisition is attempted at most 3 times; with an
initialized pool the fetch raises exactly when all three attempts fail; a
success stops the loop immediately; on each non-final failure the page
created by that attempt is closed (two closures when all attempts fail
after page creation); the shared render surface is never torn down or
reinitialized — the pool state is passed through unchanged even for
crash-type failures. -/
theorem page_retry_bounded_no_teardown (att : Nat → Attempt) (co : CloseOracle)
    (st : PoolState) (hinit : st.initialized = true) :
    (init_browser_page att co st).attemptsUsed ≤ 3 ∧
    (init_browser_page att co st).pool = st ∧
    (init_browser_page att co st).teardowns = 0 ∧
    ((init_browser_page att co st).raised = true ↔
      (att 0).after ≠ .ok ∧ (att 1).after ≠ .ok ∧ (att 2).after ≠ .ok) ∧
    ((att 0).after = .ok → init_browser_page att co st = ⟨false, 1, 0, st, 0⟩) ∧
    ((∀ i, i < 3 → ∃ k, (att i).after = .failAfterPage k) →
      (init_browser_page att co st).pageClosures = 2 ∧
      (init_browser_page att co st).raised = true) := by
  rw [init_browser_page_eval att co st hinit]
  cases ha0 : (att 0).after with
  | ok => refine ⟨by simp, rfl, rfl, by simp [ha0], fun _ => rfl, fun hall => ?_⟩
          obtain ⟨k, hk⟩ := hall 0 (by omega)
          rw [ha0] at hk
          exact AttemptOutcome.noConfusion hk
  | failBeforePage k0 =>
    cases ha1 : (att 1).after with
    | ok =>
      refine ⟨by simp, rfl, rfl, by simp [ha0, ha1], by simp [ha0], fun hall => ?_⟩
      obtain ⟨k, hk⟩ := hall 1 (by omega)
      rw [ha1] at hk
      exact AttemptOutcome.noConfusion hk
    | failBeforePage k1 =>
      cases ha2 : (att 2).after with
      | ok =>
        refine ⟨by simp, rfl, rfl, by simp [ha0, ha1, ha2], by simp [ha0], fun hall => ?_⟩
        obtain ⟨k, hk⟩ := hall 2 (by omega)
        rw [ha2] at hk
        exact AttemptOutcome.noConfusion hk
      | failBeforePage k2 =>
        refine ⟨by simp, rfl, rfl, by simp [ha0, ha1, ha2], by simp [ha0], fun hall => ?_⟩
        obtain ⟨k, hk⟩ := hall 0 (by omega)
        rw [ha0] at hk
        exact AttemptOutcome.noConfusion hk
      | failAfterPage k2 =>
        refine ⟨by simp, rfl, rfl, by simp [ha0, ha1, ha2], by simp [ha0], fun hall => ?_⟩
        obtain ⟨k, hk⟩ := hall 0 (by omega)
        rw [ha0] at hk
        exact AttemptOutcome.noConfusion hk
    | failAfterPage k1 =>
      cases ha2 : (att 2).after with
      | ok =>
        refine ⟨by simp, rfl, rfl, by simp [ha0, ha1, ha2], by simp [ha0], fun hall => ?_⟩
        obtain ⟨k, hk⟩ := hall 2 (by omega)
        rw [ha2] at hk
        exact AttemptOutcome.noConfusion hk
      | failBeforePage k2 =>
        refine ⟨by simp, rfl, rfl, by simp [ha0, ha1, ha2], by simp [ha0], fun hall => ?_⟩
        obtain ⟨k, hk⟩ := hall 0 (by omega)
        rw [ha0] at hk
        exact AttemptOutcome.noConfusion hk
      | failAfterPage k2 =>
        refine ⟨by simp, rfl, rfl, by simp [ha0, ha1, ha2], by simp [ha0], fun hall => ?_⟩
        obtain ⟨k, hk⟩ := hall 0 (by omega)
        rw [ha0] at hk
        exact AttemptOutcome.noConfusion hk
  | failAfterPage k0 =>
    cases ha1 : (att 1).after with
    | ok =>
      refine ⟨by simp, rfl, rfl, by simp [ha0, ha1], by simp [ha0], fun hall => ?_⟩
      obtain ⟨k, hk⟩ := hall 1 (by omega)
      rw [ha1] at hk
      exact AttemptOutcome.noConfusion hk
    | failBeforePage k1 =>
      cases ha2 : (att 2).after with
      | ok =>
        refine ⟨by simp, rfl, rfl, by simp [ha0, ha1, ha2], by simp [ha0], fun hall => ?_⟩
        obtain ⟨k, hk⟩ := hall 2 (by omega)
        rw [ha2] at hk
        exact AttemptOutcome.noConfusion hk
      | failBeforePage k2 =>
        refine ⟨by simp, rfl, rfl, by simp [ha0, ha1, ha2], by simp [ha0], fun hall => ?_⟩
        obtain ⟨k, hk⟩ := hall 1 (by omega)
        rw [ha1] at hk
        exact AttemptOutcome.noConfusion hk
      | failAfterPage k2 =>
        refine ⟨by simp, rfl, rfl, by simp [ha0, ha1, ha2], by simp [ha0], fun hall => ?_⟩
        obtain ⟨k, hk⟩ := hall 1 (by omega)
        rw [ha1] at hk
        exact AttemptOutcome.noConfusion hk
    | failAfterPage k1 =>
      cases ha2 : (att 2).after with
      | ok =>
        refine ⟨by simp, rfl, rfl, by simp [ha0, ha1, ha2], by simp [ha0], fun hall => ?_⟩
        obtain ⟨k, hk⟩ := hall 2 (by omega)
        rw [ha2] at hk
        exact AttemptOutcome.noConfusion hk
      | failBeforePage k2 =>
        refine ⟨by simp, rfl, rfl, by simp [ha0, ha1, ha2], by simp [ha0], fun hall => ?_⟩
        obtain ⟨k, hk⟩ := hall 2 (by omega)
        rw [ha2] at hk
        exact AttemptOutcome.noConfusion hk
      | failAfterPage k2 =>
        exact ⟨by simp, rfl, rfl, by simp [ha0, ha1, ha2], by simp [ha0],
          fun _ => ⟨by simp [failCost], rfl⟩⟩

/-- Witness for `page_retry_bounded_no_teardown`: the crashing scenario
leaves zero teardowns and raises. -/
theorem page_retry_bounded_no_teardown_witness :
    (init_browser_page (fun _ => ⟨⟨true, true, true⟩, .failAfterPage .crashed⟩)
        ⟨true, true, true⟩ ⟨some 1, some 1, some 1, true⟩).teardowns = 0 ∧
    (init_browser_page (fun _ => ⟨⟨true, true, true⟩, .failAfterPage .crashed⟩)
        ⟨true, true, true⟩ ⟨some 1, some 1, some 1, true⟩).raised = true :=
  ⟨(page_retry_bounded_no_teardown _ _ _ rfl).2.2.1,
   ((page_retry_bounded_no_teardown _ _ _ rfl).2.2.2.2.2
     (fun _ _ => ⟨.crashed, rfl⟩)).2⟩

/-! ## Claim C8 — the text normalizer -/

/-- C8 counterexample: a markup node whose single text segment contains an
interior run of two spaces.  `clean_text` in the default node mode keeps
the run intact — runs of whitespace are not collapsed for markup-node
input, contrary to the claim. -/
theorem normalizer_collapse_counterexample :
    cleanN (.elem "td" "" [] [.text "a  b"]) = "a  b" ∧ ("a  b" : String) ≠ "a b" :=
  ⟨rfl, by decide⟩

/-- Every whitespace character surviving the string branch of `clean_text`
is a plain space: the collapse pass replaces every whitespace run by one
space and the later passes only delete characters. -/
theorem clean_text_str_chars (s : String) :
    ∀ c ∈ (clean_text (some (.str s)) true false).data, pyWs c = true → c = ' ' := by
  intro c hc hw
  have hc2 : c ∈ stripWs (removePlus (stripWs (collapseWs ' ' (stripWs s.data)))) := hc
  have hc3 := mem_stripWs _ hc2
  have hc4 := mem_removePlus _ hc3
  have hc5 := mem_stripWs _ hc4
  rcases mem_collapseAux _ _ hc5 with h | h
  · exact h
  · rw [hw] at h; cases h

theorem clean_text_str_stripped (s : String) :
    (clean_text (some (.str s)) true false).data.dropWhile pyWs =
      (clean_text (some (.str s)) true false).data ∧
    (clean_text (some (.str s)) true false).data.reverse.dropWhile pyWs =
      (clean_text (some (.str s)) true false).data.reverse :=
  ⟨stripWs_front _, stripWs_back _⟩

/-- Inserting a noise span anywhere among an element's children does not
change `scrubList`. -/
theorem scrubList_drop_bad (bs : Node) (hbs : isBadSpan bs = true) :
    ∀ (pre post : List Node),
      scrubList (pre ++ bs :: post) = scrubList (pre ++ post) := by
  intro pre
  induction pre with
  | nil => intro post; simp [scrubList, hbs]
  | cons x xs ih =>
    intro post
    simp only [List.cons_append, scrubList, List.append_eq]
    rw [ih post]

/-- C8 (amended): the normalizer never raises on empty or null input and
returns the empty string; for raw string input, runs of whitespace are
collapsed to single spaces before the `（+）` marker is removed (so every
whitespace character in the output is a plain space and the output carries
no leading or trailing whitespace); the `（+）` marker is stripped in both
the string mode and the default node mode; `clean_desc` removes the noise
spans (inline color hints, `display:none` hints) before text extraction.
For markup-node input, text segments are only edge-stripped — interior
whitespace runs are preserved, not collapsed (see the counterexample). -/
theorem normalizer_amended :
    (∀ rp hb, clean_text none rp hb = "") ∧
    clean_desc none = "" ∧
    (∀ rp hb, clean_text (some (.str "")) rp hb = "") ∧
    (∀ s : String,
      (∀ c ∈ (clean_text (some (.str s)) true false).data, pyWs c = true → c = ' ') ∧
      (clean_text (some (.str s)) true false).data.dropWhile pyWs =
        (clean_text (some (.str s)) true false).data ∧
      (clean_text (some (.str s)) true false).data.reverse.dropWhile pyWs =
        (clean_text (some (.str s)) true false).data.reverse) ∧
    clean_text (some (.str "攻击力（+）12")) true false = "攻击力12" ∧
    cleanN (.elem "td" "" [] [.text "攻击力（+）12"]) = "攻击力12" ∧
    (∀ (t st : String) (cl : List String) (pre post : List Node) (bs : Node),
      isBadSpan bs = true →
      clean_desc (some (.elem t st cl (pre ++ bs :: post))) =
        clean_desc (some (.elem t st cl (pre ++ post)))) := by
  refine ⟨fun _ _ => rfl, rfl, fun rp hb => by cases rp <;> cases hb <;> rfl,
    fun s => ⟨clean_text_str_chars s, clean_text_str_stripped s⟩, rfl, rfl,
    fun t st cl pre post bs hbs => ?_⟩
  simp only [clean_desc, scrub]
  rw [scrubList_drop_bad bs hbs]

/-- Witness for `normalizer_amended`: the whitespace property at a
concrete string, and the noise-span removal at a concrete `clean_desc`
input. -/
theorem normalizer_amended_witness :
    (' ' = ' ') ∧
    clean_desc (some (.elem "td" "" []
        ([.text "前"] ++ Node.elem "span" "display:none" [] [.text "HID"] :: [.text "后"]))) =
      clean_desc (some (.elem "td" "" [] ([.text "前"] ++ [.text "后"]))) :=
  ⟨(normalizer_amended.2.2.2.1 "a b").1 ' ' (by decide) (by decide),
   normalizer_amended.2.2.2.2.2.2 "td" "" [] [.text "前"] [.text "后"] _ (by decide)⟩
